import Mathlib

/-!
Verification of the rigid-body alignment and tensor-geometry engine of
prody/measure.py against its natural-language specification.

The numeric backend (the lazily imported linear-algebra module: SVD,
symmetric eigendecomposition, and floating-point square root) is modelled
as an explicit provider structure over exact rationals, following the
design note of the spec that the implicit global linear-algebra handle is
an external dependency of every engine.  The 3x3 determinant is computed
exactly.  Every claim that is settled for all providers holds in
particular for the floating-point backed provider, whose outputs are
rational numbers.
-/

namespace ProDy

/-- A 3-vector of rationals; models one row of an (N,3) coordinate array. -/
abbrev Vec3 := Fin 3 → ℚ

/-- A 3x3 rational matrix, indexed row then column. -/
abbrev Mat3 := Fin 3 → Fin 3 → ℚ

/-- An (N,3) coordinate array, modelled as the list of its rows. -/
abbrev Coords := List Vec3

/-- A 6-value symmetric tensor record (xx, yy, zz, xy, xz, yz). -/
abbrev Vec6 := Fin 6 → ℚ

def vadd (a b : Vec3) : Vec3 := fun i => a i + b i

def vsub (a b : Vec3) : Vec3 := fun i => a i - b i

def vzero : Vec3 := fun _ => 0

def matZero : Mat3 := fun _ _ => 0

def matId : Mat3 := ![![1, 0, 0], ![0, 1, 0], ![0, 0, 1]]

/-- Column sums of an (N,3) array: models a.sum(axis=0). -/
def colSum (l : Coords) : Vec3 := fun i => (l.map (fun x => x i)).sum

/-- Column means of an (N,3) array: models a.mean(0). -/
def colMean (l : Coords) : Vec3 := fun i => colSum l i / (l.length : ℚ)

/-- Row-wise subtraction of a 3-vector: models a - com. -/
def centerRows (l : Coords) (c : Vec3) : Coords := l.map (fun x => vsub x c)

/-- Row-wise scaling by an (N,1) weight column: models a * weights. -/
def scaleRows (l : Coords) (w : List ℚ) : Coords :=
  (l.zip w).map (fun p => fun i => p.1 i * p.2)

/-- Models np.dot(a.T, b) for two (N,3) arrays a and b. -/
def dotTdot (a b : Coords) : Mat3 :=
  fun j k => ((a.zip b).map (fun p => p.1 j * p.2 k)).sum

/-- 3x3 matrix product. -/
def matMul (m n : Mat3) : Mat3 :=
  fun i k => m i 0 * n 0 k + m i 1 * n 1 k + m i 2 * n 2 k

/-- Matrix transpose. -/
def matT (m : Mat3) : Mat3 := fun i j => m j i

/-- Row vector times matrix: models np.dot(v, m) for a 3-vector v. -/
def vecMat (v : Vec3) (m : Mat3) : Vec3 :=
  fun k => v 0 * m 0 k + v 1 * m 1 k + v 2 * m 2 k

/-- Exact 3x3 determinant; models linalg.det. -/
def det3 (m : Mat3) : ℚ :=
  m 0 0 * m 1 1 * m 2 2 + m 0 1 * m 1 2 * m 2 0 + m 0 2 * m 1 0 * m 2 1
    - m 0 2 * m 1 1 * m 2 0 - m 0 0 * m 1 2 * m 2 1 - m 0 1 * m 1 0 * m 2 2

/-- Models np.sign on an exact rational. -/
def sgn (q : ℚ) : ℚ := if q < 0 then -1 else if q = 0 then 0 else 1

/-- The reflection-correction matrix Id = [[1,0,0],[0,1,0],[0,0,d]]. -/
def diagSign (d : ℚ) : Mat3 := ![![1, 0, 0], ![0, 1, 0], ![0, 0, d]]

/-- The linear-algebra and numeric backend of the module (the lazily
imported linalg handle plus floating-point square root), passed
explicitly.  svd returns the triple (U, s, Vh); eigh returns the pair
(eigenvalues, eigenvectors as columns). -/
structure LinAlg where
  svd : Mat3 → Mat3 × Vec3 × Mat3
  eigh : Mat3 → Vec3 × Mat3
  sqrt : ℚ → ℚ

/-- The Transformation value object produced by the solver: a rotation
matrix and a translation vector (already validated shapes). -/
structure Transformation where
  rotation : Mat3
  translation : Vec3

/-- Weighted centroid as computed by the weighted branch of
_calcTransformation: (coords * weights).sum(axis=0) / weights.sum(). -/
def weightedCom (coords : Coords) (weights : List ℚ) : Vec3 :=
  fun i => colSum (scaleRows coords weights) i / weights.sum

/-- The cross-covariance matrix of the unweighted branch of
_calcTransformation: np.dot(tar.T, mob) after centering both at their
column means. -/
def unweightedCov (mob tar : Coords) : Mat3 :=
  dotTdot (centerRows tar (colMean tar)) (centerRows mob (colMean mob))

/-- The cross-covariance matrix of the weighted branch of
_calcTransformation:
np.dot((tar * weights).T, (mob * weights)) / np.dot(weights.T, weights)
after centering both at their weighted centroids.  The divisor
np.dot(weights.T, weights) is the sum of the squared weights. -/
def weightedCovariance (mob tar : Coords) (weights : List ℚ) : Mat3 :=
  let mobc := centerRows mob (weightedCom mob weights)
  let tarc := centerRows tar (weightedCom tar weights)
  let weights_dot := (weights.map (fun w => w * w)).sum
  fun j k => dotTdot (scaleRows tarc weights) (scaleRows mobc weights) j k / weights_dot

/-- Shallow embedding of _calcTransformation (measure.py lines 166-194). -/
def _calcTransformation (la : LinAlg) (mob tar : Coords)
    (weights : Option (List ℚ)) : Transformation :=
  match weights with
  | none =>
    let mob_com := colMean mob
    let tar_com := colMean tar
    let matrix := unweightedCov mob tar
    let p := la.svd matrix
    let idc := diagSign (sgn (det3 matrix))
    let rotation := matMul (matT p.2.2) (matMul idc (matT p.1))
    ⟨rotation, vsub tar_com (vecMat mob_com rotation)⟩
  | some weights =>
    let mob_com := weightedCom mob weights
    let tar_com := weightedCom tar weights
    let matrix := weightedCovariance mob tar weights
    let p := la.svd matrix
    let idc := diagSign (sgn (det3 matrix))
    let rotation := matMul (matT p.2.2) (matMul idc (matT p.1))
    ⟨rotation, vsub tar_com (vecMat mob_com rotation)⟩

/-- Shallow embedding of _applyTransformation: t._translation +
np.dot(coords, t._rotation), row by row. -/
def _applyTransformation (t : Transformation) (coords : Coords) : Coords :=
  coords.map (fun x => vadd t.translation (vecMat x t.rotation))

/-- Shallow embedding of _superpose (measure.py lines 196-219).  The
target centroid and centered target are computed once, outside the loop.
The weights parameter is accepted but never read by the source body.
The movs argument selects between the in-place branch, which overwrites
each mobile frame, and the move-buffer branch. -/
def _superpose (la : LinAlg) (mobs : List Coords) (tar : Coords)
    (weights : Option (List ℚ)) (movs : Option (List Coords)) : List Coords :=
  let _ := weights
  let tar_com := colMean tar
  let tar_org := centerRows tar tar_com
  match movs with
  | none =>
    mobs.map (fun mob =>
      let mob_com := colMean mob
      let mob_org := centerRows mob mob_com
      let matrix := dotTdot tar_org mob_org
      let p := la.svd matrix
      let idc := diagSign (sgn (det3 matrix))
      let rotation := matMul (matT p.2.2) (matMul idc (matT p.1))
      mob_org.map (fun x => vadd (vecMat x rotation) tar_com))
  | some movs =>
    (mobs.zip movs).map (fun q =>
      let mob := q.1
      let mob_com := colMean mob
      let mob_org := centerRows mob mob_com
      let matrix := dotTdot tar_org mob_org
      let p := la.svd matrix
      let idc := diagSign (sgn (det3 matrix))
      let rotation := matMul (matT p.2.2) (matMul idc (matT p.1))
      q.2.map (fun x => vadd (vecMat x rotation) (vsub tar_com (vecMat mob_com rotation))))

/-! RMSD engine (_calcRMSD, measure.py lines 328-351). -/

/-- Weight argument of _calcRMSD: absent, a shared (N,1) column, or a
per-frame (M,N,1) stack. -/
inductive RMSDWeights where
  | noW : RMSDWeights
  | shared (w : List ℚ) : RMSDWeights
  | perFrame (ws : List (List ℚ)) : RMSDWeights

/-- Target argument of _calcRMSD: a single (N,3) frame or an (M,N,3) stack. -/
inductive RMSDTarget where
  | single (t : Coords) : RMSDTarget
  | stack (ts : List Coords) : RMSDTarget

/-- Return value of _calcRMSD: a scalar for a single frame, an (M,) array
for a stack. -/
inductive RMSDOut where
  | scalar (x : ℚ) : RMSDOut
  | array (xs : List ℚ) : RMSDOut

/-- Models ((ref - t) ** 2).sum() for two (N,3) arrays. -/
def sqDiffSum (ref t : Coords) : ℚ :=
  ((ref.zip t).map (fun p =>
    (p.1 0 - p.2 0) ^ 2 + (p.1 1 - p.2 1) ^ 2 + (p.1 2 - p.2 2) ^ 2)).sum

/-- Models (((ref - t) ** 2) * weights).sum() with an (N,1) weight column
broadcast across the three coordinate columns. -/
def sqDiffWSum (ref t : Coords) (w : List ℚ) : ℚ :=
  (((ref.zip t).zip w).map (fun p =>
    ((p.1.1 0 - p.1.2 0) ^ 2 + (p.1.1 1 - p.1.2 1) ^ 2 + (p.1.1 2 - p.1.2 2) ^ 2) * p.2)).sum

/-- Shallow embedding of _calcRMSD.  The per-frame weight loop indexes
weights[i]; since the public wrapper validates that the weight stack and
the target stack have equal leading length, the loop is modelled by a
zip.  The combination of a single-frame target with a per-frame weight
stack is rejected by the wrapper validation and modelled as none. -/
def _calcRMSD (la : LinAlg) (ref : Coords) (tar : RMSDTarget)
    (weights : RMSDWeights) : Option RMSDOut :=
  match weights with
  | .noW =>
    let divByN : ℚ := 1 / (ref.length : ℚ)
    match tar with
    | .single t => some (.scalar (la.sqrt (sqDiffSum ref t * divByN)))
    | .stack ts => some (.array (ts.map (fun t => la.sqrt (sqDiffSum ref t * divByN))))
  | .shared w =>
    match tar with
    | .single t => some (.scalar (la.sqrt (sqDiffWSum ref t w * (1 / w.sum))))
    | .stack ts => some (.array (ts.map (fun t => la.sqrt (sqDiffWSum ref t w * (1 / w.sum)))))
  | .perFrame ws =>
    match tar with
    | .single _ => none
    | .stack ts => some (.array ((ts.zip ws).map (fun p => la.sqrt (sqDiffWSum ref p.1 p.2 / p.2.sum))))

/-! Radius-of-gyration engine (calcRadiusOfGyration, measure.py lines
432-471), weighted single-frame path.  The source flattens the (N,1)
weight column to a flat length-N vector before using it, so the product
coords * weights is governed by the numpy broadcasting rule for an (N,3)
array against an (N,) vector: it is only defined when N equals 3 (the
weights are then applied across the three coordinate columns) or when N
equals 1, and raises a ValueError otherwise. -/

/-- Numpy broadcasting of an (N,3) array times a flat length-k vector:
defined when k = 3 (multiply across columns) or k = 1 (scale everything),
a broadcasting error (none) otherwise. -/
def npBroadcastMulCols (coords : Coords) (w : List ℚ) : Option Coords :=
  if w.length = 3 then
    some (coords.map (fun x => fun j => x j * w.getD j.val 0))
  else if w.length = 1 then
    some (coords.map (fun x => fun j => x j * w.headI))
  else
    none

/-- Shallow embedding of the weighted single-frame branch of
calcRadiusOfGyration: after the length check, the source computes
com = (coords * weights).mean(0) / wsum and
d2sum = (((coords - com) ** 2).sum(1) * weights).sum(),
returning (d2sum / wsum) ** 0.5. -/
def calcRgWeightedSingle (la : LinAlg) (coords : Coords) (weights : List ℚ) : Option ℚ :=
  if weights.length ≠ coords.length then none
  else
    let wsum := weights.sum
    match npBroadcastMulCols coords weights with
    | none => none
    | some cw =>
      let com := fun j => colMean cw j / wsum
      let d2 := coords.map (fun x =>
        (x 0 - com 0) ^ 2 + (x 1 - com 1) ^ 2 + (x 2 - com 2) ^ 2)
      let d2sum := ((d2.zip weights).map (fun p => p.1 * p.2)).sum
      some (la.sqrt (d2sum / wsum))

/-- Modelled from the spec (section 4.6): the claimed weighted radius of
gyration with centroid c = (weights * coords).sum(0) / weights.sum() and
Rg = sqrt of ((weights * squared distances to c).sum() / weights.sum()),
with the weighted coordinate sum divided by the weight sum exactly once. -/
def calcRgWeightedSingleSpec (la : LinAlg) (coords : Coords) (weights : List ℚ) : Option ℚ :=
  if weights.length ≠ coords.length then none
  else
    let c := fun j => colSum (scaleRows coords weights) j / weights.sum
    let radicand := ((coords.zip weights).map (fun p =>
      ((p.1 0 - c 0) ^ 2 + (p.1 1 - c 1) ^ 2 + (p.1 2 - c 2) ^ 2) * p.2)).sum / weights.sum
    some (la.sqrt radicand)

/-! Tensor-axis engine (calcADPAxes, measure.py lines 473-612). -/

/-- Build the symmetric 3x3 matrix from a (xx, yy, zz, xy, xz, yz)
record, as the element array filled by the source loop. -/
def buildElement (a : Vec6) : Mat3 :=
  ![![a 0, a 3, a 4], ![a 3, a 1, a 5], ![a 4, a 5, a 2]]

/-- Models vals[vals < 0] = 0: negative eigenvalues are clamped to zero. -/
def clampNeg (v : Vec3) : Vec3 := fun j => if v j < 0 then 0 else v j

/-- Column-wise dot products (vecs * prev).sum(0) of a fresh eigenvector
matrix with the stored axes block of the previous atom. -/
def colDots (vecs prev : Mat3) : Vec3 :=
  fun j => vecs 0 j * prev 0 j + vecs 1 j * prev 1 j + vecs 2 j * prev 2 j

/-- First atom of calcADPAxes: eigendecompose, clamp negative
eigenvalues, store sqrt-scaled eigenvector columns.  Returns the stored
3x3 axes block and the (ascending-order) clamped eigenvalues. -/
def adpFirst (la : LinAlg) (a : Vec6) : Mat3 × Vec3 :=
  let p := la.eigh (buildElement a)
  let vals := clampNeg p.1
  let vecs := p.2
  let sv := fun j => la.sqrt (vals j)
  (fun r j => sv j * vecs r j, vals)

/-- Later atoms of calcADPAxes: additionally multiply the sqrt-scaled
eigenvalues by np.sign((vecs * axes_prev).sum(0)) before scaling the
eigenvector columns. -/
def adpStep (la : LinAlg) (prev : Mat3) (a : Vec6) : Mat3 × Vec3 :=
  let p := la.eigh (buildElement a)
  let vals := clampNeg p.1
  let vecs := p.2
  let sv0 := fun j => la.sqrt (vals j)
  let sv := fun j => sv0 j * sgn (colDots vecs prev j)
  (fun r j => sv j * vecs r j, vals)

/-- The loop over atoms 1..n-1, carrying the previous stored axes block. -/
def adpLoop (la : LinAlg) (prev : Mat3) : List Vec6 → List (Mat3 × Vec3)
  | [] => []
  | a :: rest =>
    let s := adpStep la prev a
    s :: adpLoop la s.1 rest

/-- The per-atom blocks (stored axes, clamped eigenvalues) produced by
the main loop of calcADPAxes before column reordering and filtering.
The source indexes anisous[0] unconditionally, so an empty record list
is an error (none). -/
def adpBlocksRaw (la : LinAlg) : List Vec6 → Option (List (Mat3 × Vec3))
  | [] => none
  | a :: rest =>
    let f := adpFirst la a
    some (f :: adpLoop la f.1 rest)

/-- Models axes[:, [2,1,0]]: reverse the column order of a block. -/
def reorderCols (m : Mat3) : Mat3 := fun r j => m r (Fin.rev j)

/-- The optional keyword filters of calcADPAxes. -/
structure ADPKwargs where
  fract : Option ℚ
  ratio : Option ℚ
  ratio2 : Option ℚ
  ratio3 : Option ℚ

/-- Shallow embedding of calcADPAxes over the per-atom tensor records,
returning the list of per-atom 3x3 axes blocks (the (3N,3) output viewed
three rows at a time).  Filter selection follows the source: a fract
keyword takes the fract branch unconditionally; otherwise, if any ratio
keyword is present, ratio2 is preferred with column index 1, else ratio
then ratio3 with column index 2.  Assertion failures on out-of-range
filter values are modelled as none. -/
def calcADPAxes (la : LinAlg) (anisous : List Vec6) (kw : ADPKwargs) :
    Option (List Mat3) :=
  match adpBlocksRaw la anisous with
  | none => none
  | some blocks =>
  let axes := blocks.map (fun b => reorderCols b.1)
  let variances := blocks.map Prod.snd
  match kw.fract with
  | some fract =>
    if 33 / 100 < fract ∧ fract < 1 then
      some ((axes.zip variances).map (fun p =>
        if p.2 (Fin.rev 0) / (p.2 0 + p.2 1 + p.2 2) > fract then p.1 else matZero))
    else
      none
  | none =>
    let sel : Option (ℚ × Fin 3) :=
      match kw.ratio2 with
      | some r2 => some (r2, 1)
      | none =>
        match kw.ratio with
        | some r => some (r, 2)
        | none =>
          match kw.ratio3 with
          | some r3 => some (r3, 2)
          | none => none
    match sel with
    | none => some axes
    | some rd =>
      if 0 < rd.1 ∧ rd.1 < 1 then
        some ((axes.zip variances).map (fun p =>
          if p.2 (Fin.rev rd.2) / p.2 (Fin.rev 0) ≤ rd.1 then p.1 else matZero))
      else
        none

/-! Transformation construction and shape validation (measure.py lines
58-94).  Arguments are modelled as numpy arrays of arbitrary shape. -/

/-- A numpy array: a shape together with its flat data. -/
structure NpArr where
  shape : List ℕ
  data : List ℚ

/-- A Transformation object as built by the constructor, holding the
validated rotation and translation arrays. -/
structure TransformationArr where
  rotation : NpArr
  translation : NpArr

/-- setRotation: rejects any array whose shape is not exactly (3,3). -/
def setRotationCheck (r : NpArr) : Option NpArr :=
  if r.shape = [3, 3] then some r else none

/-- setTranslation: rejects any array whose shape is not exactly (3,). -/
def setTranslationCheck (t : NpArr) : Option NpArr :=
  if t.shape = [3] then some t else none

/-- Transformation.__init__: validates the rotation first, then the
translation; a validation failure aborts construction. -/
def transformationInit (rotation translation : NpArr) : Option TransformationArr :=
  match setRotationCheck rotation with
  | none => none
  | some r =>
    match setTranslationCheck translation with
    | none => none
    | some t => some ⟨r, t⟩

/-! Spec-modelled reference definitions, used to compare the embedded
code against the claims. -/

/-- Modelled from the spec, section 4.2, unweighted: center both sets at
their means, H = centered target transposed times centered mobile,
SVD H = U S Vh, d = sign(det H), V = transpose of Vh,
rotation = V times diag(1,1,d) times transpose of U,
translation = target centroid minus mobile centroid times the rotation. -/
def specSolverUnweighted (la : LinAlg) (mob tar : Coords) : Transformation :=
  let mob_centroid := colMean mob
  let tar_centroid := colMean tar
  let mob_centered := centerRows mob mob_centroid
  let tar_centered := centerRows tar tar_centroid
  let H := dotTdot tar_centered mob_centered
  let res := la.svd H
  let U := res.1
  let V := matT res.2.2
  let d := sgn (det3 H)
  let R := matMul V (matMul (diagSign d) (matT U))
  ⟨R, vsub tar_centroid (vecMat mob_centroid R)⟩

/-- Modelled from the spec as claimed for the weighted variant: the
cross-covariance with both operand columns pre-multiplied by the
weights, divided by the product of the weight sum with itself (the
square of the sum of the weights). -/
def specWeightedCovClaimed (mob tar : Coords) (weights : List ℚ) : Mat3 :=
  let mobc := centerRows mob (weightedCom mob weights)
  let tarc := centerRows tar (weightedCom tar weights)
  fun j k => dotTdot (scaleRows tarc weights) (scaleRows mobc weights) j k
      / (weights.sum * weights.sum)

/-- The amended weighted cross-covariance: the same numerator divided by
the dot product of the weight column with itself, that is the sum of the
squared weights. -/
def specWeightedCovAmended (mob tar : Coords) (weights : List ℚ) : Mat3 :=
  let mobc := centerRows mob (weightedCom mob weights)
  let tarc := centerRows tar (weightedCom tar weights)
  fun j k => dotTdot (scaleRows tarc weights) (scaleRows mobc weights) j k
      / (weights.map (fun w => w * w)).sum

/-- Entrywise scalar multiple of a 3x3 matrix. -/
def matSmul (c : ℚ) (m : Mat3) : Mat3 := fun i j => c * m i j

/-! Concrete backend instance and inputs used by counterexamples and
witnesses.  The backend returns the identity factors for every SVD
query, extracts the diagonal with identity eigenvectors for eigh
queries, and uses the identity as square root; on the diagonal matrices
these witnesses feed it, the eigh answers are exact decompositions. -/

def laW : LinAlg :=
  ⟨fun _ => (matId, vzero, matId), fun m => (![m 0 0, m 1 1, m 2 2], matId), fun q => q⟩

def mobC1 : Coords := [![1, 0, 0], ![0, 1, 0]]

def wC1 : List ℚ := [1, 2]

def mobC4 : Coords :=
  [![1, 0, 0], ![-1, 0, 0], ![0, 1, 0], ![0, -1, 0], ![0, 0, 1], ![0, 0, -1]]

def tarC4 : Coords :=
  [![1, 0, 0], ![-1, 0, 0], ![0, 1, 0], ![0, -1, 0], ![0, 0, 1], ![0, 0, 0]]

def wC4 : List ℚ := [1, 1, 1, 1, 1, 3]

def rgPts2 : Coords := [![-1, 0, 0], ![1, 0, 0]]

def rgPts3 : Coords := [![1, 0, 0], ![0, 1, 0], ![0, 0, 1]]

def wRg3 : List ℚ := [1, 1, 2]

def a6C2 : Vec6 := ![1, 1, 4, 0, 0, 0]

def z6 : Vec6 := ![0, 0, 0, 0, 0, 0]

def e6 : Vec6 := ![1, 1, 1, 0, 0, 0]

def refC8 : Coords := [![0, 0, 0], ![2, 0, 0]]

def tC8 : Coords := [![0, 0, 0], ![0, 0, 0]]

/-! Theorems. -/

/-- C9: constructing a Transformation succeeds exactly when the rotation
argument has shape (3,3) and the translation argument has shape (3,);
every constructed Transformation holds arrays of exactly those shapes,
so no ill-shaped Transformation is ever built. -/
theorem transformationInit_validates (r t : NpArr) :
    ((∃ tr, transformationInit r t = some tr) ↔ (r.shape = [3, 3] ∧ t.shape = [3]))
    ∧ (∀ tr, transformationInit r t = some tr →
        tr.rotation.shape = [3, 3] ∧ tr.translation.shape = [3]) := by
  unfold transformationInit setRotationCheck setTranslationCheck
  by_cases h1 : r.shape = [3, 3] <;> by_cases h2 : t.shape = [3] <;>
    simp_all

/-- C10: when the fract keyword is supplied together with any of the
ratio keywords, the fract filter is applied and the ratio keywords are
ignored; the outcome is the same as supplying fract alone. -/
theorem calcADPAxes_fract_precedence (la : LinAlg) (anisous : List Vec6)
    (f : ℚ) (r r2 r3 : Option ℚ) :
    calcADPAxes la anisous ⟨some f, r, r2, r3⟩ =
      calcADPAxes la anisous ⟨some f, none, none, none⟩ := rfl

/-- C5: the unweighted solver centers both sets at their means, forms
H as centered target transposed times centered mobile, and returns the
rotation V diag(1,1,sign(det H)) U-transposed with translation
target centroid minus mobile centroid times the rotation, exactly as the
spec-modelled solver states. -/
theorem calcTransformation_unweighted_spec (la : LinAlg) (mob tar : Coords) :
    _calcTransformation la mob tar none = specSolverUnweighted la mob tar := rfl

/-- C1 counterexample: for the pair mobC1/mobC1 with weights (1,2) of
positive sum, the covariance the solver forms differs from the claimed
one normalized by the square of the weight sum (entry (0,0) is 8/45 in
the code and 8/81 under the claim). -/
theorem weightedCovariance_claim_cex :
    (0 : ℚ) < wC1.sum ∧
      weightedCovariance mobC1 mobC1 wC1 ≠ specWeightedCovClaimed mobC1 mobC1 wC1 :=
  ⟨by with_unfolding_all decide, by with_unfolding_all decide⟩

/-- C1 amended: for every pair and every weight vector with positive
sum, the solver forms the weighted cross-covariance with both operand
columns pre-multiplied by the weights, divided by the dot product of the
weight vector with itself (the sum of the squared weights), not by the
square of the weight sum. -/
theorem weightedCovariance_amended (mob tar : Coords) (w : List ℚ)
    (hw : 0 < w.sum) :
    weightedCovariance mob tar w = specWeightedCovAmended mob tar w := rfl

/-- Witness for the amended C1 theorem at the concrete counterexample
input. -/
theorem weightedCovariance_amended_witness :
    (0 : ℚ) < wC1.sum ∧
      weightedCovariance mobC1 mobC1 wC1 = specWeightedCovAmended mobC1 mobC1 wC1 :=
  ⟨by with_unfolding_all decide, weightedCovariance_amended mobC1 mobC1 wC1 (by with_unfolding_all decide)⟩

/-- C6: the RMSD engine returns a scalar sqrt of the summed squared
deviation divided by the atom count N for a single unweighted frame; for
a stack it returns an array of length M with the same per-frame formula;
with a per-frame weight stack, entry i divides by the sum of the weights
of frame i, independently per frame. -/
theorem calcRMSD_formulas (la : LinAlg) (ref t : Coords) (ts : List Coords)
    (ws : List (List ℚ)) (hws : ws.length = ts.length) :
    _calcRMSD la ref (.single t) .noW =
        some (.scalar (la.sqrt (sqDiffSum ref t / (ref.length : ℚ))))
    ∧ (∃ xs : List ℚ, _calcRMSD la ref (.stack ts) .noW = some (.array xs)
        ∧ xs.length = ts.length
        ∧ xs = ts.map (fun t2 => la.sqrt (sqDiffSum ref t2 / (ref.length : ℚ))))
    ∧ (∃ xs : List ℚ, _calcRMSD la ref (.stack ts) (.perFrame ws) = some (.array xs)
        ∧ xs.length = ts.length
        ∧ xs = (ts.zip ws).map (fun p => la.sqrt (sqDiffWSum ref p.1 p.2 / p.2.sum))) := by
  refine ⟨?_, ⟨_, rfl, ?_, ?_⟩, ⟨_, rfl, ?_, ?_⟩⟩
  · simp [_calcRMSD, mul_one_div, div_eq_mul_inv]
  · simp
  · simp [mul_one_div, div_eq_mul_inv]
  · simp [hws]
  · rfl

/-- Witness for the C6 theorem at a concrete two-atom reference with a
one-frame stack and a matching per-frame weight stack. -/
theorem calcRMSD_formulas_witness :
    ([[1, 1]] : List (List ℚ)).length = [tC8].length
    ∧ (_calcRMSD laW refC8 (.single tC8) .noW =
        some (.scalar (laW.sqrt (sqDiffSum refC8 tC8 / (refC8.length : ℚ))))
      ∧ (∃ xs : List ℚ, _calcRMSD laW refC8 (.stack [tC8]) .noW = some (.array xs)
          ∧ xs.length = [tC8].length
          ∧ xs = [tC8].map (fun t2 => laW.sqrt (sqDiffSum refC8 t2 / (refC8.length : ℚ))))
      ∧ (∃ xs : List ℚ, _calcRMSD laW refC8 (.stack [tC8]) (.perFrame [[1, 1]]) = some (.array xs)
          ∧ xs.length = [tC8].length
          ∧ xs = ([tC8].zip [[1, 1]]).map
              (fun p => laW.sqrt (sqDiffWSum refC8 p.1 p.2 / p.2.sum)))) :=
  ⟨rfl, calcRMSD_formulas laW refC8 tC8 [tC8] [[1, 1]] rfl⟩

/-- C4 amended: for every frame stack, target, and weights argument, the
in-place batch superposition result for frame i equals the unweighted
single-frame solve of frame i against the target applied to frame i; the
weights argument is ignored by the batch engine. -/
theorem superpose_inplace_eq_solve (la : LinAlg) (mobs : List Coords)
    (tar : Coords) (weights : Option (List ℚ)) :
    _superpose la mobs tar weights none =
      mobs.map (fun mob =>
        _applyTransformation (_calcTransformation la mob tar none) mob) := by
  simp only [_superpose, _applyTransformation, _calcTransformation, unweightedCov, centerRows]
  apply List.map_congr_left
  intro mob _
  rw [List.map_map]
  apply List.map_congr_left
  intro x _
  funext k
  simp only [Function.comp, vadd, vsub, vecMat]
  ring

set_option maxRecDepth 4000 in
/-- C4 counterexample: with a concrete backend, a one-frame stack, and
nonuniform weights of positive sum, the in-place batch result differs
from the weighted single-frame solve applied to the frame (the engine
ignores the weights). -/
theorem superpose_weights_cex :
    (0 : ℚ) < wC4.sum ∧
    _superpose laW [mobC4] tarC4 (some wC4) none ≠
      [_applyTransformation (_calcTransformation laW mobC4 tarC4 (some wC4)) mobC4] :=
  ⟨by with_unfolding_all decide, by with_unfolding_all decide⟩

set_option maxHeartbeats 2000000 in
set_option maxRecDepth 100000 in
/-- C2 counterexample: with the ratio filter at threshold 1/2, the
concrete atom has smallest-to-largest eigenvalue ratio 1/4, at or below
the threshold, yet the engine keeps its axes (the returned block is the
nonzero unfiltered block), contradicting the claim that such points are
zeroed. -/
theorem calcADPAxes_ratio_cex :
    ((1 : ℚ) / 4 ≤ 1 / 2)
    ∧ calcADPAxes laW [a6C2] ⟨none, some (1 / 2), none, none⟩ =
        some [reorderCols (adpFirst laW a6C2).1]
    ∧ reorderCols (adpFirst laW a6C2).1 ≠ matZero :=
  ⟨by norm_num, by with_unfolding_all decide, by with_unfolding_all decide⟩

/-- C2 amended: under a ratio filter with threshold in (0,1), a point
keeps its axes exactly when the monitored eigenvalue ratio (smallest
over largest for ratio and ratio3, second-largest over largest for
ratio2) is at or below the threshold, and all three axes are zeroed
exactly when the ratio is above the threshold — the reverse of the
claimed direction. -/
theorem calcADPAxes_ratio_amended (la : LinAlg) (anisous : List Vec6) (th : ℚ)
    (blocks : List (Mat3 × Vec3)) (h0 : 0 < th) (h1 : th < 1)
    (hb : adpBlocksRaw la anisous = some blocks) :
    calcADPAxes la anisous ⟨none, some th, none, none⟩ =
        some (blocks.map (fun b =>
          if b.2 0 / b.2 2 ≤ th then reorderCols b.1 else matZero))
    ∧ calcADPAxes la anisous ⟨none, none, some th, none⟩ =
        some (blocks.map (fun b =>
          if b.2 1 / b.2 2 ≤ th then reorderCols b.1 else matZero))
    ∧ calcADPAxes la anisous ⟨none, none, none, some th⟩ =
        some (blocks.map (fun b =>
          if b.2 0 / b.2 2 ≤ th then reorderCols b.1 else matZero)) := by
  refine ⟨?_, ?_, ?_⟩ <;>
  · unfold calcADPAxes
    rw [hb]
    simp only [if_pos (And.intro h0 h1), List.zip_map', List.map_map]
    rfl

set_option maxHeartbeats 2000000 in
set_option maxRecDepth 100000 in
/-- Witness for the amended C2 theorem at the concrete one-atom input
with threshold 1/2. -/
theorem calcADPAxes_ratio_amended_witness :
    (0 : ℚ) < 1 / 2 ∧ (1 : ℚ) / 2 < 1
    ∧ adpBlocksRaw laW [a6C2] = some [adpFirst laW a6C2]
    ∧ calcADPAxes laW [a6C2] ⟨none, some (1 / 2), none, none⟩ =
        some ([adpFirst laW a6C2].map
          (fun b => if b.2 0 / b.2 2 ≤ 1 / 2 then reorderCols b.1 else matZero)) :=
  ⟨by norm_num, by norm_num, by with_unfolding_all rfl,
    (calcADPAxes_ratio_amended laW [a6C2] (1 / 2) [adpFirst laW a6C2]
      (by norm_num) (by norm_num) (by with_unfolding_all rfl)).1⟩

set_option maxHeartbeats 2000000 in
set_option maxRecDepth 100000 in
/-- C7 counterexample: after a zero first tensor, every dot product of
the second atom eigenvectors with the stored axes of the first atom is
zero, hence none is negative; the claim then requires the second atom to
keep its axes unchanged, and those unflipped axes are nonzero, yet the
engine stores a zero block for the second atom. -/
theorem adpStep_zero_dot_cex :
    calcADPAxes laW [z6, e6] ⟨none, none, none, none⟩ = some [matZero, matZero]
    ∧ (∀ j : Fin 3, ¬ colDots (laW.eigh (buildElement e6)).2 (adpFirst laW z6).1 j < 0)
    ∧ reorderCols (adpFirst laW e6).1 ≠ matZero := by
  refine ⟨?_, by with_unfolding_all decide, by with_unfolding_all decide⟩
  have h : adpBlocksRaw laW [z6, e6] =
      some [adpFirst laW z6, adpStep laW (adpFirst laW z6).1 e6] := by
    with_unfolding_all rfl
  unfold calcADPAxes
  rw [h]
  exact congrArg some (by with_unfolding_all decide)

/-- C7 amended: for every atom after the first, axis column j is flipped
exactly when the dot product of its eigenvector column with the stored
axis column of the previous atom is negative, kept unchanged exactly
when the dot product is positive, and zeroed when the dot product is
zero; when the square-root backend is nonnegative on nonnegative inputs,
two consecutive identical tensor records store identical axes blocks. -/
theorem adpStep_sign_rule (la : LinAlg)
    (hsq : ∀ q : ℚ, 0 ≤ q → 0 ≤ la.sqrt q) (prev : Mat3) (a : Vec6) :
    (∀ j r : Fin 3,
      (colDots (la.eigh (buildElement a)).2 prev j < 0 →
        (adpStep la prev a).1 r j = -(adpFirst la a).1 r j)
      ∧ (colDots (la.eigh (buildElement a)).2 prev j = 0 →
        (adpStep la prev a).1 r j = 0)
      ∧ (0 < colDots (la.eigh (buildElement a)).2 prev j →
        (adpStep la prev a).1 r j = (adpFirst la a).1 r j))
    ∧ adpStep la (adpFirst la a).1 a = adpFirst la a := by
  constructor
  · intro j r
    refine ⟨fun hlt => ?_, fun heq => ?_, fun hgt => ?_⟩
    · simp only [adpStep, adpFirst, sgn, if_pos hlt]
      ring
    · simp only [adpStep, adpFirst, sgn, heq]
      norm_num
    · simp only [adpStep, adpFirst, sgn, if_neg (not_lt.mpr hgt.le),
        if_neg hgt.ne.symm]
      ring
  · have hfst : (adpStep la (adpFirst la a).1 a).1 = (adpFirst la a).1 := by
      funext r j
      simp only [adpStep, adpFirst, colDots]
      set s := la.sqrt (clampNeg (la.eigh (buildElement a)).1 j) with hs_def
      set v0 := (la.eigh (buildElement a)).2 0 j
      set v1 := (la.eigh (buildElement a)).2 1 j
      set v2 := (la.eigh (buildElement a)).2 2 j
      have hs : 0 ≤ s := by
        apply hsq
        simp only [clampNeg]
        split
        · exact le_refl 0
        · exact le_of_not_lt (by assumption)
      have hdot : v0 * (s * v0) + v1 * (s * v1) + v2 * (s * v2) =
          s * (v0 ^ 2 + v1 ^ 2 + v2 ^ 2) := by ring
      rcases eq_or_lt_of_le hs with hs0 | hs0
      · rw [← hs0]
        ring
      · have hn : 0 ≤ v0 ^ 2 + v1 ^ 2 + v2 ^ 2 := by positivity
        rcases eq_or_lt_of_le hn with hn0 | hn0
        · have hvr : (la.eigh (buildElement a)).2 r j = 0 := by
            have h00 : v0 = 0 := by nlinarith [sq_nonneg v0, sq_nonneg v1, sq_nonneg v2]
            have h11 : v1 = 0 := by nlinarith [sq_nonneg v0, sq_nonneg v1, sq_nonneg v2]
            have h22 : v2 = 0 := by nlinarith [sq_nonneg v0, sq_nonneg v1, sq_nonneg v2]
            fin_cases r
            · exact h00
            · exact h11
            · exact h22
          rw [hvr]
          ring
        · have hpos : 0 < v0 * (s * v0) + v1 * (s * v1) + v2 * (s * v2) := by
            rw [hdot]
            exact mul_pos hs0 hn0
          simp only [sgn, if_neg (not_lt.mpr hpos.le), if_neg hpos.ne.symm]
          ring
    have hsnd : (adpStep la (adpFirst la a).1 a).2 = (adpFirst la a).2 := rfl
    calc adpStep la (adpFirst la a).1 a
        = ((adpStep la (adpFirst la a).1 a).1, (adpStep la (adpFirst la a).1 a).2) := rfl
      _ = ((adpFirst la a).1, (adpFirst la a).2) := by rw [hfst, hsnd]
      _ = adpFirst la a := rfl

set_option maxHeartbeats 2000000 in
set_option maxRecDepth 100000 in
/-- Witness for the amended C7 theorem: a concrete positive-dot column
is kept unchanged, and a repeated identity tensor stores identical
blocks (the identity backend square root is nonnegative on nonnegative
inputs). -/
theorem adpStep_sign_rule_witness :
    (∀ q : ℚ, 0 ≤ q → 0 ≤ laW.sqrt q)
    ∧ (0 < colDots (laW.eigh (buildElement e6)).2 matId 0
        ∧ (adpStep laW matId e6).1 0 0 = (adpFirst laW e6).1 0 0)
    ∧ adpStep laW (adpFirst laW e6).1 e6 = adpFirst laW e6 :=
  ⟨fun _ hq => hq,
    ⟨by with_unfolding_all decide,
      ((adpStep_sign_rule laW (fun _ hq => hq) matId e6).1 0 0).2.2
        (by with_unfolding_all decide)⟩,
    (adpStep_sign_rule laW (fun _ hq => hq) matId e6).2⟩

set_option maxHeartbeats 2000000 in
set_option maxRecDepth 100000 in
/-- C3: the radius-of-gyration engine contradicts the claimed formula on
the weighted single-frame path.  On the two-point unit-weight input the
flattened weight vector cannot broadcast against the (2,3) coordinate
array, so the call fails, while the claimed formula yields 1; on a
three-point input the broadcast succeeds but applies the weights across
coordinate columns and divides the centroid by N times the weight sum,
giving a squared radicand of 19/24 where the claimed formula gives 5/8
(the identity backend square root exposes the radicands). -/
theorem calcRg_weighted_divergence :
    calcRgWeightedSingle laW rgPts2 [1, 1] = none
    ∧ calcRgWeightedSingleSpec laW rgPts2 [1, 1] = some 1
    ∧ calcRgWeightedSingle laW rgPts3 wRg3 = some (19 / 24)
    ∧ calcRgWeightedSingleSpec laW rgPts3 wRg3 = some (5 / 8) :=
  ⟨by with_unfolding_all decide, by with_unfolding_all decide,
    by with_unfolding_all decide, by with_unfolding_all decide⟩

/-! Helper lemmas about uniform weight vectors, shared by the uniform
weight equivalence theorem. -/

theorem zip_replicate_of_le {α : Type} (l : List α) (c : ℚ) :
    ∀ n, l.length ≤ n → l.zip (List.replicate n c) = l.map (fun a => (a, c)) := by
  induction l with
  | nil => intro n _; simp
  | cons a as ih =>
    intro n hn
    cases n with
    | zero => simp at hn
    | succ m =>
      simp only [List.replicate_succ, List.zip_cons_cons, List.map_cons]
      rw [ih m (by simpa using hn)]

theorem sum_map_mul_const {α : Type} (l : List α) (f : α → ℚ) (c : ℚ) :
    (l.map (fun a => f a * c)).sum = (l.map f).sum * c := by
  induction l with
  | nil => simp
  | cons a as ih => simp [ih, add_mul]

theorem replicate_sum (n : ℕ) (c : ℚ) : (List.replicate n c).sum = (n : ℚ) * c := by
  simp [List.sum_replicate, nsmul_eq_mul]

theorem sqDiffWSum_replicate (ref t : Coords) (c : ℚ) :
    sqDiffWSum ref t (List.replicate ref.length c) = sqDiffSum ref t * c := by
  unfold sqDiffWSum sqDiffSum
  rw [zip_replicate_of_le (ref.zip t) c ref.length
    (by rw [List.length_zip]; exact min_le_left _ _), List.map_map]
  exact sum_map_mul_const _ _ c

theorem scaleRows_replicate (l : Coords) (n : ℕ) (c : ℚ) (h : l.length ≤ n) :
    scaleRows l (List.replicate n c) = l.map (fun x => fun i => x i * c) := by
  unfold scaleRows
  rw [zip_replicate_of_le l c n h, List.map_map]
  rfl

theorem weightedCom_replicate (coords : Coords) (c : ℚ) (hc : c ≠ 0) :
    weightedCom coords (List.replicate coords.length c) = colMean coords := by
  funext i
  unfold weightedCom colMean colSum
  rw [scaleRows_replicate coords coords.length c (le_refl _), replicate_sum,
    List.map_map]
  have hcomp : ((fun (x : Vec3) => x i) ∘ (fun (x : Vec3) => fun j => x j * c)) =
      fun (x : Vec3) => x i * c := rfl
  rw [hcomp, sum_map_mul_const, mul_div_mul_right _ _ hc]

theorem det3_matSmul (c : ℚ) (m : Mat3) : det3 (matSmul c m) = c ^ 3 * det3 m := by
  unfold det3 matSmul
  ring

theorem sgn_cube_mul (c d : ℚ) (hc : 0 < c) : sgn (c ^ 3 * d) = sgn d := by
  have h3 : 0 < c ^ 3 := by positivity
  rcases lt_trichotomy d 0 with h | h | h
  · unfold sgn
    rw [if_pos (mul_neg_of_pos_of_neg h3 h), if_pos h]
  · rw [h, mul_zero]
  · unfold sgn
    rw [if_neg (not_lt.mpr (mul_nonneg h3.le h.le)), if_neg (mul_pos h3 h).ne.symm,
      if_neg (not_lt.mpr h.le), if_neg h.ne.symm]

theorem weightedCovariance_replicate (mob tar : Coords) (c : ℚ) (hc : c ≠ 0)
    (hlen : mob.length = tar.length) :
    weightedCovariance mob tar (List.replicate mob.length c) =
      matSmul (1 / (mob.length : ℚ)) (unweightedCov mob tar) := by
  funext j k
  have htar : weightedCom tar (List.replicate mob.length c) = colMean tar := by
    rw [hlen]; exact weightedCom_replicate tar c hc
  unfold weightedCovariance matSmul unweightedCov
  rw [weightedCom_replicate mob c hc, htar]
  rw [scaleRows_replicate (centerRows tar (colMean tar)) mob.length c
    (by simp [centerRows, hlen])]
  rw [scaleRows_replicate (centerRows mob (colMean mob)) mob.length c
    (by simp [centerRows])]
  unfold dotTdot
  rw [List.zip_map, List.map_map, List.map_replicate, replicate_sum]
  have hfun : ((fun (p : Vec3 × Vec3) => p.1 j * p.2 k) ∘
      Prod.map (fun x => fun i => x i * c) (fun x => fun i => x i * c)) =
      fun (p : Vec3 × Vec3) => (p.1 j * p.2 k) * (c * c) := by
    funext p
    simp only [Function.comp, Prod.map]
    ring
  rw [hfun, sum_map_mul_const, mul_div_mul_right _ _ (mul_ne_zero hc hc),
    one_div, inv_mul_eq_div]

theorem rmsd_radicand_uniform (S c : ℚ) (n : ℕ) (hc : c ≠ 0) :
    S * c * (1 / ((n : ℚ) * c)) = S * (1 / (n : ℚ)) := by
  rcases eq_or_ne (n : ℚ) 0 with h | h
  · rw [h]
    simp
  · field_simp
    ring

/-- C8: with the uniform weight vector whose entries all equal a
positive constant c, the weighted RMSD equals the unweighted RMSD for a
single frame and for a stack, and — whenever the SVD backend returns the
same factors for the cross-covariance matrix and its positive rescaling
by 1/N — the weighted solver returns the same rotation and translation
as the unweighted solver. -/
theorem uniform_weights_eq_unweighted (la : LinAlg) (ref t : Coords)
    (ts : List Coords) (mob tar : Coords) (c : ℚ) (hc : 0 < c)
    (hlen : mob.length = tar.length)
    (hsvd : la.svd (matSmul (1 / (mob.length : ℚ)) (unweightedCov mob tar)) =
      la.svd (unweightedCov mob tar)) :
    _calcRMSD la ref (.single t) (.shared (List.replicate ref.length c)) =
        _calcRMSD la ref (.single t) .noW
    ∧ _calcRMSD la ref (.stack ts) (.shared (List.replicate ref.length c)) =
        _calcRMSD la ref (.stack ts) .noW
    ∧ _calcTransformation la mob tar (some (List.replicate mob.length c)) =
        _calcTransformation la mob tar none := by
  have hc0 : c ≠ 0 := hc.ne.symm
  refine ⟨?_, ?_, ?_⟩
  · simp only [_calcRMSD, sqDiffWSum_replicate, replicate_sum,
      rmsd_radicand_uniform _ _ _ hc0]
  · simp only [_calcRMSD, sqDiffWSum_replicate, replicate_sum,
      rmsd_radicand_uniform _ _ _ hc0]
  · cases mob with
    | nil =>
      have htar0 : tar = [] := by
        cases tar with
        | nil => rfl
        | cons a as => simp at hlen
      subst htar0
      have h1 : weightedCom ([] : Coords) (List.replicate (List.length ([] : Coords)) c) =
          colMean ([] : Coords) := by
        funext i
        simp [weightedCom, colMean, colSum, scaleRows]
      have h2 : weightedCovariance ([] : Coords) ([] : Coords)
          (List.replicate (List.length ([] : Coords)) c) = unweightedCov [] [] := by
        funext j k
        simp [weightedCovariance, unweightedCov, dotTdot, scaleRows, centerRows]
      simp only [_calcTransformation, h1, h2]
    | cons m ms =>
      have hn : (0 : ℚ) < ((List.length (m :: ms) : ℕ) : ℚ) := by
        exact_mod_cast Nat.succ_pos ms.length
      have hinv : 0 < 1 / ((List.length (m :: ms) : ℕ) : ℚ) := by positivity
      have hmob := weightedCom_replicate (m :: ms) c hc0
      have htar : weightedCom tar (List.replicate (List.length (m :: ms)) c) =
          colMean tar := by
        rw [hlen]; exact weightedCom_replicate tar c hc0
      have hcov := weightedCovariance_replicate (m :: ms) tar c hc0 hlen
      simp only [_calcTransformation, hmob, htar, hcov, hsvd, det3_matSmul,
        sgn_cube_mul _ _ hinv]

/-- Witness for the C8 theorem at the concrete spec scenario reference
and a backend whose SVD is constant (hence trivially scale-stable). -/
theorem uniform_weights_eq_unweighted_witness :
    (0 : ℚ) < 2
    ∧ (_calcRMSD laW refC8 (.single tC8) (.shared (List.replicate refC8.length 2)) =
        _calcRMSD laW refC8 (.single tC8) .noW
      ∧ _calcRMSD laW refC8 (.stack [tC8]) (.shared (List.replicate refC8.length 2)) =
        _calcRMSD laW refC8 (.stack [tC8]) .noW
      ∧ _calcTransformation laW refC8 tC8 (some (List.replicate refC8.length 2)) =
        _calcTransformation laW refC8 tC8 none) :=
  ⟨by norm_num,
    uniform_weights_eq_unweighted laW refC8 tC8 [tC8] refC8 tC8 2
      (by norm_num) rfl rfl⟩

end ProDy
